import Mathlib

/-!
Verification development for the geotranote traffic-report application.

The development shallowly embeds the three components the specification
describes: the dashboard read/aggregation service (`fetchData` and the
summary/chart reduces), the report submission workflow (`handleSubmit`,
`handleAddInfraction`) and the session-gated routing (`routeElement`).
The remote backend-as-a-service store is external to the repository, so
its request semantics (query evaluation, insert, upsert, uid generation)
is modelled from the specification; everything else is translated from
the source files.
-/

/-! ## Timestamp order

The store compares ISO-8601 timestamp strings; for such strings the
store's chronological order coincides with lexicographic order on code
points, which we define executably. -/

/-- Lexicographic comparison of character lists by code point. -/
def lexLe : List Char → List Char → Bool
  | [], _ => true
  | _ :: _, [] => false
  | a :: as, b :: bs =>
    if a.toNat < b.toNat then true
    else if b.toNat < a.toNat then false
    else lexLe as bs

/-- Timestamp-string comparison used by the modelled store. -/
def tsLe (a b : String) : Bool := lexLe a.data b.data

/-! ## Dashboard read side (Dashboard.tsx and the charts dashboard) -/

/-- A row of the geotranote_reports collection as read by the dashboard:
the fields of interface Report in Dashboard.tsx together with the sector
field that the charts dashboard reads. -/
structure DashReport where
  id : String
  service_name : String
  sector : String
  car_removals : Int
  motorcycle_removals : Int
  total_approaches : Int
  created_at : String
  deriving DecidableEq, Repr

/-- A row of the infractions collection as selected by fetchData
(interface Infraction in Dashboard.tsx): quantity and report_uid. -/
structure DashInfraction where
  quantity : Int
  report_uid : String
  deriving DecidableEq, Repr

/-- The reports query built by fetchData: an optional equality filter on
service_name and optional gte / lte bounds on created_at.  The ordering
is always created_at descending in this code, so it is not a field. -/
structure ReportsQuery where
  eqService : Option String
  gteCreated : Option String
  lteCreated : Option String
  deriving DecidableEq, Repr

/-- Embedding of the query construction in fetchData (Dashboard.tsx):
start from select(*) ordered by created_at descending, add .eq on
service_name when the service filter is not "all", add .gte on created_at
when a start date is given (non-empty string, JS truthiness), and add
.lte on created_at with the end date extended by "T23:59:59" when an end
date is given. -/
def buildReportsQuery (selectedService startDate endDate : String) : ReportsQuery :=
  let q0 : ReportsQuery := ⟨none, none, none⟩
  let q1 := if selectedService ≠ "all" then { q0 with eqService := some selectedService } else q0
  let q2 := if startDate ≠ "" then { q1 with gteCreated := some startDate } else q1
  if endDate ≠ "" then { q2 with lteCreated := some (endDate ++ "T23:59:59") } else q2

/-- Modelled from the spec: the external store's evaluation of the row
filters of a reports query (the store itself is not part of src/).  An eq
filter keeps rows whose service_name equals the value; gte and lte keep
rows whose created_at is at least, respectively at most, the bound,
compared as timestamp strings. -/
def rowSatisfies (q : ReportsQuery) (r : DashReport) : Bool :=
  (match q.eqService with
    | none => true
    | some s => r.service_name == s) &&
  (match q.gteCreated with
    | none => true
    | some s => tsLe s r.created_at) &&
  (match q.lteCreated with
    | none => true
    | some s => tsLe r.created_at s)

/-- Insert a report into a list kept in descending created_at order. -/
def insertDesc (r : DashReport) : List DashReport → List DashReport
  | [] => [r]
  | x :: xs => if tsLe x.created_at r.created_at then r :: x :: xs else x :: insertDesc r xs

/-- Modelled from the spec: executing a reports query against the store
(a list of rows): keep the rows satisfying every filter and return them
ordered by created_at descending. -/
def runReportsQuery (db : List DashReport) (q : ReportsQuery) : List DashReport :=
  (db.filter (rowSatisfies q)).foldr insertDesc []

/-- The remote calls fetchData can issue, in order. -/
inductive FetchCall
  | reportsQuery (q : ReportsQuery)
  | infractionsIn (uids : List String)
  deriving DecidableEq, Repr

/-- The outcome of one fetchData run: the reports and infractions state
it sets, and the trace of remote calls it issued. -/
structure FetchResult where
  reports : List DashReport
  infractions : List DashInfraction
  calls : List FetchCall
  deriving DecidableEq, Repr

/-- Embedding of fetchData (Dashboard.tsx): run the filtered reports
query, collect the returned report ids, and only when at least one id
was returned issue the second query for the infractions whose report_uid
is in that id set (modelled from the spec: the store's in-set filter);
otherwise set the infraction state to the empty list directly, issuing
no second query. -/
def fetchData (dbReports : List DashReport) (dbInfractions : List DashInfraction)
    (selectedService startDate endDate : String) : FetchResult :=
  let q := buildReportsQuery selectedService startDate endDate
  let reportsData := runReportsQuery dbReports q
  let reportUids := reportsData.map (fun r => r.id)
  if 0 < reportUids.length then
    let infractionsData := dbInfractions.filter (fun i => reportUids.contains i.report_uid)
    ⟨reportsData, infractionsData, [.reportsQuery q, .infractionsIn reportUids]⟩
  else
    ⟨reportsData, [], [.reportsQuery q]⟩

/-! ## Dashboard aggregation (the reduces of Dashboard.tsx and the charts
dashboard) -/

/-- Total infraction quantity (Dashboard.tsx line 94). -/
def totalInfractions (infs : List DashInfraction) : Int :=
  infs.foldl (fun sum inf => sum + inf.quantity) 0

/-- Total removals, cars plus motorcycles (Dashboard.tsx line 95). -/
def totalRemovals (reports : List DashReport) : Int :=
  reports.foldl (fun sum r => sum + r.car_removals + r.motorcycle_removals) 0

/-- Total car removals (Dashboard.tsx line 96). -/
def totalCarRemovals (reports : List DashReport) : Int :=
  reports.foldl (fun sum r => sum + r.car_removals) 0

/-- Total motorcycle removals (Dashboard.tsx line 97). -/
def totalMotorcycleRemovals (reports : List DashReport) : Int :=
  reports.foldl (fun sum r => sum + r.motorcycle_removals) 0

/-- Total approaches (Dashboard.tsx line 98). -/
def totalApproaches (reports : List DashReport) : Int :=
  reports.foldl (fun sum r => sum + r.total_approaches) 0

/-- One accumulator entry of the grouping reduces of the charts
dashboard: a group key (service name or sector) and its value. -/
structure GroupEntry (β : Type) where
  key : String
  val : β
  deriving DecidableEq, Repr

/-- One step of the find-or-push grouping reduce: update the value of the
entry carrying the given key in place, or push a fresh entry at the end
when no entry carries it. -/
def bumpEntry {β : Type} (k : String) (init : β) (upd : β → β) :
    List (GroupEntry β) → List (GroupEntry β)
  | [] => [⟨k, init⟩]
  | e :: es => if e.key == k then ⟨e.key, upd e.val⟩ :: es else e :: bumpEntry k init upd es

/-- The find-or-push grouping reduce shared by serviceTypeData and
removalsBySector in the charts dashboard. -/
def groupAccum {α β : Type} (key : α → String) (init : α → β) (upd : α → β → β)
    (l : List α) : List (GroupEntry β) :=
  l.foldl (fun acc a => bumpEntry (key a) (init a) (upd a) acc) []

/-- serviceTypeData (charts dashboard, lines 72-80): count of reports
grouped by service_name, groups in first-seen order. -/
def serviceTypeData (reports : List DashReport) : List (GroupEntry Nat) :=
  groupAccum (fun r => r.service_name) (fun _ => 1) (fun _ v => v + 1) reports

/-- removalsBySector (charts dashboard, lines 83-96): car and motorcycle
removal sums grouped by sector, groups in first-seen order. -/
def removalsBySector (reports : List DashReport) : List (GroupEntry (Int × Int)) :=
  groupAccum (fun r => r.sector) (fun r => (r.car_removals, r.motorcycle_removals))
    (fun r v => (v.1 + r.car_removals, v.2 + r.motorcycle_removals)) reports

/-- Reference definition, following the specification's words: the first
occurrence of each element of a list, in first-seen order. -/
def firstSeen : List String → List String
  | [] => []
  | x :: xs => x :: (firstSeen xs).filter (fun y => y != x)

/-! ## Report submission workflow (form page, second part of Dashboard.tsx) -/

/-- A pending infraction entry added through the form sidebar
(interface Infraction on the form page, before it carries a report_uid). -/
structure PendingInfraction where
  infraction_type : String
  quantity : Int
  deriving DecidableEq, Repr

/-- The form fields of the submission page (interface FormData). -/
structure FormData where
  service_name : String
  sector : String
  car_removals : Int
  motorcycle_removals : Int
  total_approaches : Int
  deriving DecidableEq, Repr

/-- The defaults the form is initialised with and reset to on success. -/
def defaultFormData : FormData :=
  ⟨"ordinario", "GEOTRAN - 1º Distrito", 0, 0, 0⟩

/-- The local component state of the submission page that handleSubmit
reads and writes. -/
structure AppState where
  formData : FormData
  infractions : List PendingInfraction
  formError : Option String
  protocolNumber : Option String
  deriving DecidableEq, Repr

/-- A row of the infractions collection as written by the workflow:
store-generated uid, type, quantity and the nullable report reference. -/
structure InfractionRow where
  uid : Nat
  infraction_type : String
  quantity : Int
  report_uid : Option Nat
  deriving DecidableEq, Repr

/-- A row of the geotranote_reports collection as written by the form. -/
structure ReportRow where
  uid : Nat
  service_name : String
  sector : String
  car_removals : Int
  motorcycle_removals : Int
  total_approaches : Int
  protocol_number : String
  deriving DecidableEq, Repr

/-- Modelled from the spec: the remote store as the submission workflow
sees it; uid is the store-generated identifier, handed out from a
freshness counter on insertion. -/
structure Store where
  reports : List ReportRow
  infractions : List InfractionRow
  nextUid : Nat
  deriving DecidableEq, Repr

/-- Modelled from the spec: the nanoid library (an external dependency,
not part of src/), a collision-resistant generator of unique random
tokens, modelled as an injective supply of non-empty tokens drawn from a
freshness counter. -/
def nanoid (n : Nat) : String :=
  String.mk ('p' :: List.replicate n 'x')

/-- Modelled from the spec: batch insert into the infractions collection;
the store assigns consecutive fresh uids in insertion order and the rows
carry no report reference yet. -/
def insertFresh (base : Nat) : List PendingInfraction → List InfractionRow
  | [] => []
  | p :: ps => ⟨base, p.infraction_type, p.quantity, none⟩ :: insertFresh (base + 1) ps

/-- Modelled from the spec: upsert into the infractions collection keyed
by uid: a row whose uid matches an update is replaced by that update, and
updates whose uid is not present are appended. -/
def applyUpsert (updates rows : List InfractionRow) : List InfractionRow :=
  rows.map (fun r => ((updates.find? (fun u => u.uid == r.uid)).getD r)) ++
    updates.filter (fun u => rows.all (fun r => r.uid != u.uid))

/-- The i-th infraction row of a batch, rebound to the given report uid:
reference shape of the rows the rebinding upsert writes. -/
def bindRows (base ruid : Nat) : List PendingInfraction → List InfractionRow
  | [] => []
  | p :: ps => ⟨base, p.infraction_type, p.quantity, some ruid⟩ :: bindRows (base + 1) ruid ps

/-- The externally visible actions of one handleSubmit run, in order. -/
inductive SubmitEvent
  | genProtocol (tok : String)
  | insertInfractions (rows : List PendingInfraction)
  | insertReport (row : ReportRow)
  | upsertInfractions (rows : List InfractionRow)
  deriving DecidableEq, Repr

/-- The outcome of one handleSubmit run: the component state it leaves,
the store it leaves, the advanced token counter and the event trace. -/
structure SubmitOutcome where
  state : AppState
  store : Store
  counter : Nat
  events : List SubmitEvent
  deriving DecidableEq, Repr

/-- The form-level message set when the report insert fails. -/
def reportSaveError : String := "Erro ao salvar o formulário."

/-- The form-level message set when the rebinding upsert fails. -/
def updateInfractionsError : String := "Erro ao atualizar as infrações."

/-- The form-level message set by the catch handler (reached when the
infraction batch insert throws). -/
def catchAllError : String := "Erro ao salvar os dados. Por favor, tente novamente."

/-- Embedding of handleSubmit (form page): clear the error and protocol
state, generate a protocol number locally, then, when pending infractions
exist: batch-insert them (on failure the thrown error reaches the catch
handler and nothing else runs), insert the report row carrying the form
fields and the protocol number (on failure set the form error and stop,
leaving the orphan infraction rows in place), and upsert each inserted
infraction row rebound to the report's uid, pairing inserted uids with
pending entries by index (on failure set the form error and stop).  With
no pending infractions only the report insert runs.  On success set the
protocol number and reset the form fields and the pending list.  The
Booleans okInf, okRep and okUpd say whether each remote call succeeds. -/
def handleSubmit (st : AppState) (store : Store) (counter : Nat)
    (okInf okRep okUpd : Bool) : SubmitOutcome :=
  let st0 : AppState := { st with formError := none, protocolNumber := none }
  let newProtocolNumber := nanoid counter
  if 0 < st.infractions.length then
    if okInf = false then
      ⟨{ st0 with formError := some catchAllError }, store, counter + 1,
        [.genProtocol newProtocolNumber, .insertInfractions st.infractions]⟩
    else
      let fresh := insertFresh store.nextUid st.infractions
      let store1 : Store :=
        { store with infractions := store.infractions ++ fresh,
                     nextUid := store.nextUid + st.infractions.length }
      let insertedUids := fresh.map (fun r => r.uid)
      let report : ReportRow :=
        ⟨store1.nextUid, st.formData.service_name, st.formData.sector,
          st.formData.car_removals, st.formData.motorcycle_removals,
          st.formData.total_approaches, newProtocolNumber⟩
      if okRep = false then
        ⟨{ st0 with formError := some reportSaveError }, store1, counter + 1,
          [.genProtocol newProtocolNumber, .insertInfractions st.infractions,
            .insertReport report]⟩
      else
        let store2 : Store :=
          { store1 with reports := store1.reports ++ [report], nextUid := store1.nextUid + 1 }
        let updated := List.zipWith
          (fun uid p => (⟨uid, p.infraction_type, p.quantity, some report.uid⟩ : InfractionRow))
          insertedUids st.infractions
        if okUpd = false then
          ⟨{ st0 with formError := some updateInfractionsError }, store2, counter + 1,
            [.genProtocol newProtocolNumber, .insertInfractions st.infractions,
              .insertReport report, .upsertInfractions updated]⟩
        else
          let store3 : Store :=
            { store2 with infractions := applyUpsert updated store2.infractions }
          ⟨⟨defaultFormData, [], none, some newProtocolNumber⟩, store3, counter + 1,
            [.genProtocol newProtocolNumber, .insertInfractions st.infractions,
              .insertReport report, .upsertInfractions updated]⟩
  else
    let report : ReportRow :=
      ⟨store.nextUid, st.formData.service_name, st.formData.sector,
        st.formData.car_removals, st.formData.motorcycle_removals,
        st.formData.total_approaches, newProtocolNumber⟩
    if okRep = false then
      ⟨{ st0 with formError := some reportSaveError }, store, counter + 1,
        [.genProtocol newProtocolNumber, .insertReport report]⟩
    else
      ⟨⟨defaultFormData, [], none, some newProtocolNumber⟩,
        { store with reports := store.reports ++ [report], nextUid := store.nextUid + 1 },
        counter + 1, [.genProtocol newProtocolNumber, .insertReport report]⟩

/-- The sidebar-related state handleAddInfraction reads and writes. -/
structure SidebarState where
  infractions : List PendingInfraction
  selectedInfraction : String
  quantity : Int
  searchTerm : String
  isSidebarOpen : Bool
  deriving DecidableEq, Repr

/-- Embedding of handleAddInfraction (form page): when an infraction is
selected (non-empty string, JS truthiness) and the quantity is positive,
append the entry to the pending list, reset the selection, the search
term and the quantity, and close the sidebar; otherwise do nothing. -/
def handleAddInfraction (s : SidebarState) : SidebarState :=
  if s.selectedInfraction ≠ "" ∧ 0 < s.quantity then
    { s with infractions := s.infractions ++ [⟨s.selectedInfraction, s.quantity⟩],
             selectedInfraction := "", searchTerm := "", quantity := 1,
             isSidebarOpen := false }
  else s

/-! ## Session-gated routing (part_001) -/

/-- The routes declared in the App component. -/
inductive Route
  | home
  | login
  | dashboard
  | form
  deriving DecidableEq, Repr

/-- What a route element renders: a page or a Navigate redirect. -/
inductive RouteView
  | homePage
  | loginPage
  | dashboardPage
  | formPage
  | redirectTo (r : Route)
  deriving DecidableEq, Repr

/-- Embedding of the Routes element of App (part_001, lines 78-89): the
login route renders the login page without a session and a redirect to
"/" with one; the dashboard and form routes render their pages with a
session and a redirect to the login route without one. -/
def routeElement {σ : Type} (session : Option σ) : Route → RouteView
  | .home => .homePage
  | .login => if session.isSome then .redirectTo .home else .loginPage
  | .dashboard => if session.isSome then .dashboardPage else .redirectTo .login
  | .form => if session.isSome then .formPage else .redirectTo .login

/-! ## Lemmas about the timestamp order -/

theorem lexLe_total (a b : List Char) : lexLe a b = true ∨ lexLe b a = true := by
  induction a generalizing b with
  | nil => left; rfl
  | cons x xs ih =>
    cases b with
    | nil => right; rfl
    | cons y ys =>
      by_cases h1 : x.toNat < y.toNat
      · left; simp [lexLe, h1]
      · by_cases h2 : y.toNat < x.toNat
        · right; simp [lexLe, h2]
        · rcases ih ys with h | h
          · left; simp [lexLe, h1, h2, h]
          · right; simp [lexLe, h1, h2, h]

theorem lexLe_trans : ∀ {a b c : List Char},
    lexLe a b = true → lexLe b c = true → lexLe a c = true := by
  intro a
  induction a with
  | nil => intro b c _ _; rfl
  | cons x xs ih =>
    intro b c h1 h2
    match b, c with
    | [], _ => simp [lexLe] at h1
    | _ :: _, [] => simp [lexLe] at h2
    | y :: ys, z :: zs =>
      simp only [lexLe] at h1 h2 ⊢
      by_cases hxy : x.toNat < y.toNat <;> by_cases hyx : y.toNat < x.toNat <;>
        by_cases hyz : y.toNat < z.toNat <;> by_cases hzy : z.toNat < y.toNat <;>
        simp [hxy, hyx, hyz, hzy] at h1 h2 ⊢ <;>
        first
        | omega
        | (have hxz : x.toNat < z.toNat := by omega
           simp [hxz])
        | exact ⟨by omega, ih h1 h2⟩
        | exact Or.inr ⟨by omega, ih h1 h2⟩

theorem tsLe_total (a b : String) : tsLe a b = true ∨ tsLe b a = true :=
  lexLe_total a.data b.data

theorem tsLe_trans {a b c : String} (h1 : tsLe a b = true) (h2 : tsLe b c = true) :
    tsLe a c = true :=
  lexLe_trans h1 h2

/-! ## Lemmas about the modelled query execution -/

theorem mem_insertDesc {r x : DashReport} {l : List DashReport} :
    x ∈ insertDesc r l ↔ x = r ∨ x ∈ l := by
  induction l with
  | nil => simp [insertDesc]
  | cons y ys ih =>
    simp only [insertDesc]
    split
    · simp [List.mem_cons]
    · simp only [List.mem_cons, ih]
      tauto

theorem perm_insertDesc (r : DashReport) (l : List DashReport) :
    (insertDesc r l).Perm (r :: l) := by
  induction l with
  | nil => exact List.Perm.refl _
  | cons y ys ih =>
    simp only [insertDesc]
    split
    · exact List.Perm.refl _
    · exact (ih.cons y).trans (List.Perm.swap r y ys)

theorem pairwise_insertDesc {r : DashReport} {l : List DashReport}
    (h : l.Pairwise (fun a b => tsLe b.created_at a.created_at = true)) :
    (insertDesc r l).Pairwise (fun a b => tsLe b.created_at a.created_at = true) := by
  induction l with
  | nil => simp [insertDesc]
  | cons y ys ih =>
    simp only [insertDesc]
    rcases List.pairwise_cons.mp h with ⟨hy, hys⟩
    split
    case isTrue hcond =>
      refine List.pairwise_cons.mpr ⟨?_, h⟩
      intro z hz
      rcases List.mem_cons.mp hz with rfl | hz
      · exact hcond
      · exact tsLe_trans (hy z hz) hcond
    case isFalse hcond =>
      refine List.pairwise_cons.mpr ⟨?_, ih hys⟩
      intro z hz
      rcases mem_insertDesc.mp hz with rfl | hz
      · rcases tsLe_total y.created_at z.created_at with h' | h'
        · exact absurd h' hcond
        · exact h'
      · exact hy z hz

theorem perm_runReportsQuery (db : List DashReport) (q : ReportsQuery) :
    (runReportsQuery db q).Perm (db.filter (rowSatisfies q)) := by
  unfold runReportsQuery
  generalize db.filter (rowSatisfies q) = l
  induction l with
  | nil => exact List.Perm.refl _
  | cons x xs ih => exact (perm_insertDesc x _).trans (ih.cons x)

theorem pairwise_runReportsQuery (db : List DashReport) (q : ReportsQuery) :
    (runReportsQuery db q).Pairwise (fun a b => tsLe b.created_at a.created_at = true) := by
  unfold runReportsQuery
  generalize db.filter (rowSatisfies q) = l
  induction l with
  | nil => simp
  | cons x xs ih => exact pairwise_insertDesc ih

theorem rowSatisfies_build (sel s e : String) (r : DashReport) :
    rowSatisfies (buildReportsQuery sel s e) r = true ↔
      ((sel = "all" ∨ r.service_name = sel) ∧
       (s = "" ∨ tsLe s r.created_at = true) ∧
       (e = "" ∨ tsLe r.created_at (e ++ "T23:59:59") = true)) := by
  by_cases h1 : sel = "all" <;> by_cases h2 : s = "" <;> by_cases h3 : e = "" <;>
    simp [buildReportsQuery, rowSatisfies, h1, h2, h3, and_assoc]

/-- C2: for every service-type filter and optional start/end dates, the
read query returns exactly the reports satisfying: service type equals
the filter when it is not "all", creation timestamp at least the start
date when one is given and at most the end date extended to end-of-day
(inclusive) when one is given; and the result is ordered by creation
timestamp descending. -/
theorem fetchReports_filter_spec (db : List DashReport) (sel s e : String) :
    (runReportsQuery db (buildReportsQuery sel s e)).Perm
      (db.filter (rowSatisfies (buildReportsQuery sel s e))) ∧
    (∀ r : DashReport, r ∈ runReportsQuery db (buildReportsQuery sel s e) ↔
      (r ∈ db ∧ (sel = "all" ∨ r.service_name = sel) ∧
        (s = "" ∨ tsLe s r.created_at = true) ∧
        (e = "" ∨ tsLe r.created_at (e ++ "T23:59:59") = true))) ∧
    (runReportsQuery db (buildReportsQuery sel s e)).Pairwise
      (fun a b => tsLe b.created_at a.created_at = true) := by
  refine ⟨perm_runReportsQuery db _, fun r => ?_, pairwise_runReportsQuery db _⟩
  rw [(perm_runReportsQuery db _).mem_iff, List.mem_filter, rowSatisfies_build]

/-- Witness for C2 at a concrete database and filter. -/
theorem fetchReports_filter_spec_witness :
    (⟨"a", "ordinario", "GRE", 1, 0, 3, "2024-05-02T08:00:00"⟩ : DashReport) ∈
      runReportsQuery
        [⟨"b", "ras", "GRE", 0, 0, 1, "2024-05-03T09:00:00"⟩,
         ⟨"a", "ordinario", "GRE", 1, 0, 3, "2024-05-02T08:00:00"⟩]
        (buildReportsQuery "ordinario" "2024-05-01" "2024-05-09") := by
  exact ((fetchReports_filter_spec
      [⟨"b", "ras", "GRE", 0, 0, 1, "2024-05-03T09:00:00"⟩,
       ⟨"a", "ordinario", "GRE", 1, 0, 3, "2024-05-02T08:00:00"⟩]
      "ordinario" "2024-05-01" "2024-05-09").2.1
    ⟨"a", "ordinario", "GRE", 1, 0, 3, "2024-05-02T08:00:00"⟩).mpr
    ⟨by decide, Or.inr (by decide), Or.inr (by decide), Or.inr (by decide)⟩

/-- C3: when the filtered report query returns no rows, fetchData sets
the infraction state to the empty list and never issues the in-set
query; the in-set query is issued exactly when at least one report id
was returned. -/
theorem fetchData_shortcircuit (dbR : List DashReport) (dbI : List DashInfraction)
    (sel s e : String) :
    ((fetchData dbR dbI sel s e).reports = [] →
      (fetchData dbR dbI sel s e).infractions = [] ∧
      ∀ uids, FetchCall.infractionsIn uids ∉ (fetchData dbR dbI sel s e).calls) ∧
    ((fetchData dbR dbI sel s e).reports ≠ [] →
      (fetchData dbR dbI sel s e).calls =
        [.reportsQuery (buildReportsQuery sel s e),
         .infractionsIn ((fetchData dbR dbI sel s e).reports.map (fun r => r.id))]) := by
  unfold fetchData
  by_cases h : 0 < (runReportsQuery dbR (buildReportsQuery sel s e)).length
  · simp only [List.length_map, h, if_true]
    constructor
    · intro hrep
      rw [hrep] at h
      simp at h
    · intro _
      trivial
  · simp only [List.length_map, h, if_false]
    constructor
    · intro _
      exact ⟨trivial, fun uids => by simp⟩
    · intro hrep
      exact absurd (List.eq_nil_of_length_eq_zero (by omega)) hrep

/-- Witness for C3 at a concrete database where the filter matches
nothing. -/
theorem fetchData_shortcircuit_witness :
    (fetchData [⟨"b", "ras", "GRE", 0, 0, 1, "2024-05-03T09:00:00"⟩] [⟨2, "b"⟩]
      "ordinario" "" "").infractions = [] := by
  exact ((fetchData_shortcircuit [⟨"b", "ras", "GRE", 0, 0, 1, "2024-05-03T09:00:00"⟩]
    [⟨2, "b"⟩] "ordinario" "" "").1 (by decide)).1

/-! ## Lemmas about the aggregation folds -/

theorem foldl_add_map {α : Type} (f : α → Int) (l : List α) :
    ∀ a : Int, l.foldl (fun s x => s + f x) a = a + (l.map f).sum := by
  induction l with
  | nil => intro a; simp
  | cons x xs ih => intro a; simp [ih, add_assoc]

theorem foldl_count {α : Type} (l : List α) :
    ∀ n : Nat, l.foldl (fun b _ => b + 1) n = n + l.length := by
  induction l with
  | nil => intro n; simp
  | cons x xs ih => intro n; simp [ih]; omega

theorem foldl_pair_sum {α : Type} (f g : α → Int) (l : List α) :
    ∀ p : Int × Int,
      l.foldl (fun v r => (v.1 + f r, v.2 + g r)) p =
        (p.1 + (l.map f).sum, p.2 + (l.map g).sum) := by
  induction l with
  | nil => intro p; simp
  | cons x xs ih => intro p; simp [ih, add_assoc]

/-! ## Lemmas about the first-seen grouping -/

theorem mem_firstSeen {x : String} : ∀ {s : List String}, x ∈ firstSeen s ↔ x ∈ s := by
  intro s
  induction s with
  | nil => simp [firstSeen]
  | cons y ys ih =>
    by_cases hxy : x = y
    · simp [firstSeen, hxy]
    · simp [firstSeen, List.mem_filter, ih, hxy, bne_iff_ne]

theorem nodup_firstSeen : ∀ s : List String, (firstSeen s).Nodup := by
  intro s
  induction s with
  | nil => simp [firstSeen]
  | cons y ys ih =>
    simp only [firstSeen]
    refine List.nodup_cons.mpr ⟨?_, ih.filter _⟩
    intro hmem
    rcases List.mem_filter.mp hmem with ⟨_, hbne⟩
    simp at hbne

theorem firstSeen_append_singleton (x : String) :
    ∀ s : List String,
      firstSeen (s ++ [x]) = if x ∈ s then firstSeen s else firstSeen s ++ [x] := by
  intro s
  induction s with
  | nil => simp [firstSeen]
  | cons y ys ih =>
    by_cases hx : x ∈ ys
    · have hxy : x ∈ y :: ys := List.mem_cons_of_mem y hx
      simp only [List.cons_append, firstSeen, List.append_eq, ih, if_pos hx, if_pos hxy]
    · by_cases hxy : x = y
      · subst hxy
        have hmem : x ∈ x :: ys := List.mem_cons_self x ys
        simp only [List.cons_append, firstSeen, List.append_eq, ih, if_neg hx, if_pos hmem,
          List.filter_append]
        simp
      · have hnm : x ∉ y :: ys := by simp [hxy, hx]
        simp only [List.cons_append, firstSeen, List.append_eq, ih, if_neg hx, if_neg hnm,
          List.filter_append]
        simp [hxy]

theorem bumpEntry_map_not_mem {β : Type} (k : String) (i : β) (u : β → β) (g : String → β) :
    ∀ s : List String, k ∉ s →
      bumpEntry k i u (s.map fun j => ⟨j, g j⟩) = (s.map fun j => ⟨j, g j⟩) ++ [⟨k, i⟩] := by
  intro s
  induction s with
  | nil => intro _; rfl
  | cons y ys ih =>
    intro hk
    have hyk : (y == k) = false := by
      simp only [beq_eq_false_iff_ne, ne_eq]
      rintro rfl
      exact hk (List.mem_cons_self y ys)
    simp only [List.map_cons, bumpEntry, hyk, if_false, Bool.false_eq_true, List.cons_append,
      List.cons.injEq, true_and]
    exact ih (fun h => hk (List.mem_cons_of_mem y h))

theorem bumpEntry_map_mem {β : Type} (k : String) (i : β) (u : β → β) (g : String → β) :
    ∀ s : List String, s.Nodup → k ∈ s →
      bumpEntry k i u (s.map fun j => ⟨j, g j⟩) =
        s.map fun j => ⟨j, if j = k then u (g j) else g j⟩ := by
  intro s
  induction s with
  | nil => intro _ h; simp at h
  | cons y ys ih =>
    intro hnd hk
    simp only [List.map_cons, bumpEntry]
    by_cases hyk : y = k
    · subst hyk
      rw [if_pos (by simp)]
      have hcongr : ∀ j ∈ ys, (fun j => (⟨j, if j = y then u (g j) else g j⟩ : GroupEntry β)) j =
          (fun j => (⟨j, g j⟩ : GroupEntry β)) j := by
        intro j hj
        simp only
        rw [if_neg]
        rintro rfl
        exact (List.nodup_cons.mp hnd).1 hj
      rw [List.map_congr_left hcongr]
      simp
    · rw [if_neg (by simp [hyk])]
      have hkys : k ∈ ys := by
        rcases List.mem_cons.mp hk with h | h
        · exact absurd h.symm hyk
        · exact h
      rw [ih (List.nodup_cons.mp hnd).2 hkys]
      simp [hyk]

theorem filter_key_eq_nil {α : Type} (key : α → String) (k : String) (l : List α)
    (h : k ∉ l.map key) : l.filter (fun a => key a == k) = [] := by
  rw [List.filter_eq_nil_iff]
  intro a ha
  simp only [beq_iff_eq]
  intro he
  exact h (he ▸ List.mem_map_of_mem key ha)

/-- The find-or-push grouping reduce computes, for each key in first-seen
order, the fold of the update over the rows carrying that key. -/
theorem groupAccum_eq {α β : Type} (key : α → String) (init : α → β) (upd : α → β → β)
    (z : β) (hz : ∀ a, init a = upd a z) (l : List α) :
    groupAccum key init upd l =
      (firstSeen (l.map key)).map
        (fun k => ⟨k, (l.filter (fun a => key a == k)).foldl (fun b a => upd a b) z⟩) := by
  induction l using List.reverseRecOn with
  | nil => rfl
  | append_singleton l a ih =>
    have hstep : groupAccum key init upd (l ++ [a]) =
        bumpEntry (key a) (init a) (upd a) (groupAccum key init upd l) := by
      simp [groupAccum, List.foldl_append]
    rw [hstep, ih, List.map_append, List.map_singleton, firstSeen_append_singleton]
    by_cases hmem : key a ∈ l.map key
    · rw [if_pos hmem]
      rw [bumpEntry_map_mem _ _ _ _ _ (nodup_firstSeen _) (mem_firstSeen.mpr hmem)]
      apply List.map_congr_left
      intro k hk
      by_cases hk' : k = key a
      · subst hk'
        simp [List.filter_append, List.foldl_append]
      · simp only [if_neg hk', List.filter_append]
        have hnil : List.filter (fun x => key x == k) [a] = [] := by
          have hne : ¬ key a = k := fun h => hk' h.symm
          simp [hne]
        rw [hnil, List.append_nil]
    · rw [if_neg hmem]
      rw [bumpEntry_map_not_mem _ _ _ _ _ (fun hc => hmem (mem_firstSeen.mp hc))]
      rw [List.map_append]
      congr 1
      · apply List.map_congr_left
        intro k hk
        have hk' : k ≠ key a := by
          rintro rfl
          exact hmem (mem_firstSeen.mp hk)
        simp only [List.filter_append]
        have hnil : List.filter (fun x => key x == k) [a] = [] := by
          have hne : ¬ key a = k := fun h => hk' h.symm
          simp [hne]
        rw [hnil, List.append_nil]
      · rw [List.map_singleton, List.filter_append, filter_key_eq_nil key (key a) l hmem,
          List.nil_append]
        simp [hz a]

/-- C4: the derived dashboard aggregates equal their reference
definitions: each summary total is the corresponding sum over the
in-memory report and infraction sets, the service-type distribution maps
each service type in first-seen order to its report count, and the
per-sector breakdown maps each sector in first-seen order to its car and
motorcycle removal sums. -/
theorem dashboardAggregates (reports : List DashReport) (infs : List DashInfraction) :
    totalApproaches reports = (reports.map (fun r => r.total_approaches)).sum ∧
    totalRemovals reports =
      (reports.map (fun r => r.car_removals + r.motorcycle_removals)).sum ∧
    totalCarRemovals reports = (reports.map (fun r => r.car_removals)).sum ∧
    totalMotorcycleRemovals reports = (reports.map (fun r => r.motorcycle_removals)).sum ∧
    totalInfractions infs = (infs.map (fun i => i.quantity)).sum ∧
    serviceTypeData reports =
      (firstSeen (reports.map (fun r => r.service_name))).map
        (fun n => ⟨n, reports.countP (fun r => r.service_name == n)⟩) ∧
    removalsBySector reports =
      (firstSeen (reports.map (fun r => r.sector))).map
        (fun sec =>
          ⟨sec,
            (((reports.filter (fun r => r.sector == sec)).map (fun r => r.car_removals)).sum,
             ((reports.filter (fun r => r.sector == sec)).map
               (fun r => r.motorcycle_removals)).sum)⟩) := by
  refine ⟨?_, ?_, ?_, ?_, ?_, ?_, ?_⟩
  · simpa [totalApproaches] using
      foldl_add_map (fun r : DashReport => r.total_approaches) reports 0
  · have hfe : (fun (s : Int) (r : DashReport) => s + r.car_removals + r.motorcycle_removals)
        = fun (s : Int) (r : DashReport) => s + (r.car_removals + r.motorcycle_removals) := by
      funext s r
      ring
    simp only [totalRemovals, hfe]
    simpa using
      foldl_add_map (fun r : DashReport => r.car_removals + r.motorcycle_removals) reports 0
  · simpa [totalCarRemovals] using
      foldl_add_map (fun r : DashReport => r.car_removals) reports 0
  · simpa [totalMotorcycleRemovals] using
      foldl_add_map (fun r : DashReport => r.motorcycle_removals) reports 0
  · simpa [totalInfractions] using
      foldl_add_map (fun i : DashInfraction => i.quantity) infs 0
  · have h := groupAccum_eq (fun r : DashReport => r.service_name) (fun _ => 1)
      (fun _ v => v + 1) 0 (fun _ => rfl) reports
    simp only [serviceTypeData]
    rw [h]
    apply List.map_congr_left
    intro k _
    have hc := foldl_count (reports.filter (fun r => r.service_name == k)) 0
    simp only [hc, Nat.zero_add, List.countP_eq_length_filter]
  · have h := groupAccum_eq (fun r : DashReport => r.sector)
      (fun r => (r.car_removals, r.motorcycle_removals))
      (fun r v => (v.1 + r.car_removals, v.2 + r.motorcycle_removals))
      ((0 : Int), (0 : Int)) (fun a => by simp) reports
    simp only [removalsBySector]
    rw [h]
    apply List.map_congr_left
    intro k _
    have hp := foldl_pair_sum (fun r : DashReport => r.car_removals)
      (fun r : DashReport => r.motorcycle_removals)
      (reports.filter (fun r => r.sector == k)) ((0 : Int), (0 : Int))
    simp only at hp ⊢
    rw [hp]
    simp

/-! ## Lemmas about the submission workflow -/

theorem mem_insertFresh_uid :
    ∀ (ps : List PendingInfraction) (base : Nat) {r : InfractionRow},
      r ∈ insertFresh base ps → base ≤ r.uid := by
  intro ps
  induction ps with
  | nil =>
    intro base r h
    simp [insertFresh] at h
  | cons p ps ih =>
    intro base r h
    rcases List.mem_cons.mp h with rfl | h
    · exact Nat.le_refl base
    · exact Nat.le_trans (Nat.le_succ base) (ih (base + 1) h)

theorem mem_bindRows_uid :
    ∀ (ps : List PendingInfraction) (base ruid : Nat) {u : InfractionRow},
      u ∈ bindRows base ruid ps → base ≤ u.uid := by
  intro ps
  induction ps with
  | nil =>
    intro base ruid u h
    simp [bindRows] at h
  | cons p ps ih =>
    intro base ruid u h
    rcases List.mem_cons.mp h with rfl | h
    · exact Nat.le_refl base
    · exact Nat.le_trans (Nat.le_succ base) (ih (base + 1) ruid h)

theorem zipWith_insertFresh_bind (ruid : Nat) :
    ∀ (ps : List PendingInfraction) (base : Nat),
      List.zipWith
        (fun uid p => (⟨uid, p.infraction_type, p.quantity, some ruid⟩ : InfractionRow))
        ((insertFresh base ps).map (fun r => r.uid)) ps = bindRows base ruid ps := by
  intro ps
  induction ps with
  | nil => intro base; rfl
  | cons p ps ih =>
    intro base
    simp only [insertFresh, List.map_cons, List.zipWith_cons_cons, bindRows, ih]

theorem map_find_insertFresh :
    ∀ (ps : List PendingInfraction) (base ruid : Nat),
      (insertFresh base ps).map
        (fun r => ((bindRows base ruid ps).find? (fun u => u.uid == r.uid)).getD r) =
      bindRows base ruid ps := by
  intro ps
  induction ps with
  | nil => intro base ruid; rfl
  | cons p ps ih =>
    intro base ruid
    simp only [insertFresh, bindRows, List.map_cons]
    have hhead : (List.find? (fun u => u.uid == base)
        (⟨base, p.infraction_type, p.quantity, some ruid⟩ :: bindRows (base + 1) ruid ps)) =
        some ⟨base, p.infraction_type, p.quantity, some ruid⟩ := by
      apply List.find?_cons_of_pos
      simp
    have htail : ∀ r ∈ insertFresh (base + 1) ps,
        (List.find? (fun u => u.uid == r.uid)
          ((⟨base, p.infraction_type, p.quantity, some ruid⟩ : InfractionRow) ::
            bindRows (base + 1) ruid ps)).getD r =
        (List.find? (fun u => u.uid == r.uid) (bindRows (base + 1) ruid ps)).getD r := by
      intro r hr
      have hge := mem_insertFresh_uid ps (base + 1) hr
      have hne : ¬ base = r.uid := by omega
      simp [List.find?_cons, hne]
    rw [hhead, List.map_congr_left htail, ih]
    rfl

theorem bindRows_uid_mem_insertFresh :
    ∀ (ps : List PendingInfraction) (base ruid : Nat) {u : InfractionRow},
      u ∈ bindRows base ruid ps → ∃ r ∈ insertFresh base ps, r.uid = u.uid := by
  intro ps
  induction ps with
  | nil =>
    intro base ruid u h
    simp [bindRows] at h
  | cons p ps ih =>
    intro base ruid u h
    rcases List.mem_cons.mp h with rfl | h
    · exact ⟨⟨base, p.infraction_type, p.quantity, none⟩,
        List.mem_cons_self _ _, rfl⟩
    · obtain ⟨r, hr, hru⟩ := ih (base + 1) ruid h
      exact ⟨r, List.mem_cons_of_mem _ hr, hru⟩

/-- The rebinding upsert, applied to the store after the batch insert,
replaces exactly the freshly inserted rows by their bound versions and
leaves every older row untouched. -/
theorem applyUpsert_bind (old : List InfractionRow) (ps : List PendingInfraction)
    (base ruid : Nat) (hold : ∀ r ∈ old, r.uid < base) :
    applyUpsert (bindRows base ruid ps) (old ++ insertFresh base ps) =
      old ++ bindRows base ruid ps := by
  unfold applyUpsert
  have h1 : old.map
      (fun r => ((bindRows base ruid ps).find? (fun u => u.uid == r.uid)).getD r) = old := by
    have hnone : ∀ r ∈ old,
        (bindRows base ruid ps).find? (fun u => u.uid == r.uid) = none := by
      intro r hr
      rw [List.find?_eq_none]
      intro u hu
      have h1 := mem_bindRows_uid ps base ruid hu
      have h2 := hold r hr
      simp only [beq_iff_eq]
      omega
    have : ∀ r ∈ old,
        ((bindRows base ruid ps).find? (fun u => u.uid == r.uid)).getD r = id r := by
      intro r hr
      rw [hnone r hr]
      rfl
    rw [List.map_congr_left this, List.map_id]
  have h3 : (bindRows base ruid ps).filter
      (fun u => (old ++ insertFresh base ps).all (fun r => r.uid != u.uid)) = [] := by
    rw [List.filter_eq_nil_iff]
    intro u hu
    obtain ⟨r, hr, hru⟩ := bindRows_uid_mem_insertFresh ps base ruid hu
    intro hall
    have := (List.all_eq_true.mp hall) r (List.mem_append_right _ hr)
    simp [hru] at this
  rw [List.map_append, h1, map_find_insertFresh, h3, List.append_nil]

/-- C1: a submission in which every remote call succeeds persists
exactly one new report row, carrying the chosen service type, sector,
counts and the protocol number, and exactly one new infraction row per
pending entry, each bound to the report's store-generated uid and
carrying the type and quantity of the corresponding pending entry in
insertion order; all previously stored rows are untouched. -/
theorem handleSubmit_success_persists (st : AppState) (store : Store) (counter : Nat)
    (hwf : ∀ r ∈ store.infractions, r.uid < store.nextUid) :
    (handleSubmit st store counter true true true).store.reports =
      store.reports ++
        [⟨store.nextUid + st.infractions.length, st.formData.service_name, st.formData.sector,
          st.formData.car_removals, st.formData.motorcycle_removals,
          st.formData.total_approaches, nanoid counter⟩] ∧
    (handleSubmit st store counter true true true).store.infractions =
      store.infractions ++
        bindRows store.nextUid (store.nextUid + st.infractions.length) st.infractions := by
  by_cases h : 0 < st.infractions.length
  · constructor
    · simp [handleSubmit, h]
    · simp only [handleSubmit, h, if_true, if_neg (by simp : ¬(true = false))]
      simp only [zipWith_insertFresh_bind]
      exact applyUpsert_bind store.infractions st.infractions store.nextUid
        (store.nextUid + st.infractions.length) hwf
  · have hnil : st.infractions = [] := List.eq_nil_of_length_eq_zero (by omega)
    constructor
    · simp [handleSubmit, h, hnil]
    · simp [handleSubmit, h, hnil, bindRows]

/-- Witness for C1: a concrete successful submission with two pending
infractions against a store already holding one unrelated row. -/
theorem handleSubmit_success_persists_witness :
    (handleSubmit
        ⟨⟨"operacao", "GRE", 2, 1, 5⟩, [⟨"X", 3⟩, ⟨"Y", 1⟩], none, none⟩
        ⟨[], [⟨0, "Z", 7, some 9⟩], 1⟩ 4 true true true).store.reports =
      [⟨3, "operacao", "GRE", 2, 1, 5, nanoid 4⟩] ∧
    (handleSubmit
        ⟨⟨"operacao", "GRE", 2, 1, 5⟩, [⟨"X", 3⟩, ⟨"Y", 1⟩], none, none⟩
        ⟨[], [⟨0, "Z", 7, some 9⟩], 1⟩ 4 true true true).store.infractions =
      [⟨0, "Z", 7, some 9⟩, ⟨1, "X", 3, some 3⟩, ⟨2, "Y", 1, some 3⟩] := by
  have h := handleSubmit_success_persists
    ⟨⟨"operacao", "GRE", 2, 1, 5⟩, [⟨"X", 3⟩, ⟨"Y", 1⟩], none, none⟩
    ⟨[], [⟨0, "Z", 7, some 9⟩], 1⟩ 4 (by decide)
  exact ⟨h.1.trans (by decide), h.2.trans (by decide)⟩

theorem mem_insertFresh_report_uid :
    ∀ (ps : List PendingInfraction) (base : Nat) {r : InfractionRow},
      r ∈ insertFresh base ps → r.report_uid = none := by
  intro ps
  induction ps with
  | nil =>
    intro base r h
    simp [insertFresh] at h
  | cons p ps ih =>
    intro base r h
    rcases List.mem_cons.mp h with rfl | h
    · rfl
    · exact ih (base + 1) h

/-- C5: when pending infractions exist and their batch insert fails, the
whole submission aborts with the catch handler's user-facing error, the
store is left unchanged, and no report insert call is made. -/
theorem handleSubmit_infractionFail_aborts (st : AppState) (store : Store) (counter : Nat)
    (okRep okUpd : Bool) (h : 0 < st.infractions.length) :
    (handleSubmit st store counter false okRep okUpd).store = store ∧
    (handleSubmit st store counter false okRep okUpd).state.formError = some catchAllError ∧
    (handleSubmit st store counter false okRep okUpd).events =
      [.genProtocol (nanoid counter), .insertInfractions st.infractions] ∧
    (∀ row : ReportRow,
      SubmitEvent.insertReport row ∉
        (handleSubmit st store counter false okRep okUpd).events) := by
  refine ⟨?_, ?_, ?_, ?_⟩ <;> simp [handleSubmit, h]

/-- Witness for C5 at a concrete submission with one pending infraction. -/
theorem handleSubmit_infractionFail_aborts_witness :
    (handleSubmit ⟨defaultFormData, [⟨"X", 2⟩], none, none⟩
      ⟨[], [], 0⟩ 0 false true true).store = ⟨[], [], 0⟩ :=
  (handleSubmit_infractionFail_aborts ⟨defaultFormData, [⟨"X", 2⟩], none, none⟩
    ⟨[], [], 0⟩ 0 true true (by decide)).1

/-- C6: when the infraction rows were inserted and the report insert
fails, no report row is persisted, the orphan infraction rows remain in
the store without a report reference, the form-level error is surfaced
and the rebinding upsert is never attempted. -/
theorem handleSubmit_reportFail_orphans (st : AppState) (store : Store) (counter : Nat)
    (okUpd : Bool) (h : 0 < st.infractions.length) :
    (handleSubmit st store counter true false okUpd).store.reports = store.reports ∧
    (handleSubmit st store counter true false okUpd).store.infractions =
      store.infractions ++ insertFresh store.nextUid st.infractions ∧
    (∀ r ∈ insertFresh store.nextUid st.infractions, r.report_uid = none) ∧
    (handleSubmit st store counter true false okUpd).state.formError =
      some reportSaveError ∧
    (∀ rows : List InfractionRow,
      SubmitEvent.upsertInfractions rows ∉
        (handleSubmit st store counter true false okUpd).events) := by
  refine ⟨?_, ?_, fun r hr => mem_insertFresh_report_uid st.infractions store.nextUid hr,
    ?_, ?_⟩ <;> simp [handleSubmit, h]

/-- Witness for C6 at a concrete submission with one pending infraction. -/
theorem handleSubmit_reportFail_orphans_witness :
    (handleSubmit ⟨defaultFormData, [⟨"X", 2⟩], none, none⟩
      ⟨[], [], 0⟩ 0 true false true).store.infractions = [⟨0, "X", 2, none⟩] := by
  exact ((handleSubmit_reportFail_orphans ⟨defaultFormData, [⟨"X", 2⟩], none, none⟩
    ⟨[], [], 0⟩ 0 true (by decide)).2.1).trans (by decide)

/-- C7: on every failure path of the submission workflow exactly one
user-facing error message is surfaced, and the form field values and the
pending infraction list are left unchanged for retry (with no protocol
number reported). -/
theorem handleSubmit_failure_frame (st : AppState) (store : Store) (counter : Nat)
    (okInf okRep okUpd : Bool)
    (h : (handleSubmit st store counter okInf okRep okUpd).state.formError ≠ none) :
    (∃ msg, (handleSubmit st store counter okInf okRep okUpd).state.formError = some msg) ∧
    (handleSubmit st store counter okInf okRep okUpd).state.formData = st.formData ∧
    (handleSubmit st store counter okInf okRep okUpd).state.infractions = st.infractions ∧
    (handleSubmit st store counter okInf okRep okUpd).state.protocolNumber = none := by
  by_cases hlen : 0 < st.infractions.length <;>
    cases okInf <;> cases okRep <;> cases okUpd <;>
    simp_all [handleSubmit]

/-- Witness for C7 at a concrete failed submission. -/
theorem handleSubmit_failure_frame_witness :
    (handleSubmit ⟨⟨"ras", "GRE", 1, 0, 2⟩, [⟨"X", 2⟩], none, none⟩
      ⟨[], [], 0⟩ 0 false true true).state.formData = ⟨"ras", "GRE", 1, 0, 2⟩ :=
  (handleSubmit_failure_frame ⟨⟨"ras", "GRE", 1, 0, 2⟩, [⟨"X", 2⟩], none, none⟩
    ⟨[], [], 0⟩ 0 false true true (by decide)).2.1

/-- C8: the protocol number is generated locally before any remote call
(it is the first event of every run), the token supply is injective and
never produces the empty string, the counter advances on every run so no
token is ever reused across submissions, and a successful run reports
the protocol number and resets the form fields and the pending list to
their defaults. -/
theorem handleSubmit_protocol (st : AppState) (store : Store) (counter : Nat)
    (okInf okRep okUpd : Bool) :
    (handleSubmit st store counter okInf okRep okUpd).events.head? =
      some (.genProtocol (nanoid counter)) ∧
    (handleSubmit st store counter okInf okRep okUpd).counter = counter + 1 ∧
    nanoid counter ≠ "" ∧
    (∀ m n : Nat, nanoid m = nanoid n → m = n) ∧
    ((handleSubmit st store counter okInf okRep okUpd).state.formError = none →
      (handleSubmit st store counter okInf okRep okUpd).state.protocolNumber =
        some (nanoid counter) ∧
      (handleSubmit st store counter okInf okRep okUpd).state.formData = defaultFormData ∧
      (handleSubmit st store counter okInf okRep okUpd).state.infractions = []) := by
  refine ⟨?_, ?_, ?_, ?_, ?_⟩
  · by_cases hlen : 0 < st.infractions.length <;>
      cases okInf <;> cases okRep <;> cases okUpd <;> simp [handleSubmit, hlen]
  · by_cases hlen : 0 < st.infractions.length <;>
      cases okInf <;> cases okRep <;> cases okUpd <;> simp [handleSubmit, hlen]
  · intro hc
    have hdata : ('p' :: List.replicate counter 'x') = ([] : List Char) :=
      congrArg String.data hc
    exact List.cons_ne_nil _ _ hdata
  · intro m n hmn
    have hdata : ('p' :: List.replicate m 'x') = ('p' :: List.replicate n 'x') :=
      congrArg String.data hmn
    have hlen := congrArg List.length hdata
    simpa using hlen
  · by_cases hlen : 0 < st.infractions.length <;>
      cases okInf <;> cases okRep <;> cases okUpd <;> simp [handleSubmit, hlen]

/-- Witness for C8: distinct counters give distinct protocol numbers,
applied at two concrete submissions. -/
theorem handleSubmit_protocol_witness :
    (handleSubmit ⟨defaultFormData, [], none, none⟩ ⟨[], [], 0⟩ 0 true true true).counter = 1 ∧
    nanoid 0 ≠ nanoid 1 := by
  refine ⟨(handleSubmit_protocol ⟨defaultFormData, [], none, none⟩
    ⟨[], [], 0⟩ 0 true true true).2.1, fun hc => ?_⟩
  exact absurd ((handleSubmit_protocol ⟨defaultFormData, [], none, none⟩
    ⟨[], [], 0⟩ 0 true true true).2.2.2.1 0 1 hc) (by decide)

/-- C9: with no session, the protected dashboard and form routes render
a redirect to the login view; with a session, the login route renders a
redirect to the default route. -/
theorem routeElement_redirects (σ : Type) (s : σ) :
    routeElement (none : Option σ) Route.dashboard = RouteView.redirectTo Route.login ∧
    routeElement (none : Option σ) Route.form = RouteView.redirectTo Route.login ∧
    routeElement (some s) Route.login = RouteView.redirectTo Route.home :=
  ⟨rfl, rfl, rfl⟩

/-- Witness for C9 at a concrete session value. -/
theorem routeElement_redirects_witness :
    routeElement (some ()) Route.login = RouteView.redirectTo Route.home :=
  (routeElement_redirects Unit ()).2.2

/-- C10: an entry is appended to the pending list exactly when an
infraction is selected and the quantity is positive; a successful add
keeps every earlier entry in order, appends the new entry at the end,
and resets the selection, the search term and the quantity. -/
theorem handleAddInfraction_spec (s : SidebarState) :
    (s.selectedInfraction ≠ "" → 0 < s.quantity →
      handleAddInfraction s =
        { s with
            infractions := s.infractions ++ [⟨s.selectedInfraction, s.quantity⟩],
            selectedInfraction := "", searchTerm := "", quantity := 1,
            isSidebarOpen := false }) ∧
    ((s.selectedInfraction = "" ∨ s.quantity ≤ 0) → handleAddInfraction s = s) := by
  constructor
  · intro h1 h2
    simp [handleAddInfraction, h1, h2]
  · intro h
    rcases h with h | h
    · simp [handleAddInfraction, h]
    · have hq : ¬ 0 < s.quantity := by omega
      simp [handleAddInfraction, hq]

/-- Witness for C10 at a concrete sidebar state. -/
theorem handleAddInfraction_spec_witness :
    handleAddInfraction ⟨[⟨"A", 1⟩], "B", 2, "se", true⟩ =
      ⟨[⟨"A", 1⟩, ⟨"B", 2⟩], "", 1, "", false⟩ :=
  (handleAddInfraction_spec ⟨[⟨"A", 1⟩], "B", 2, "se", true⟩).1 (by decide) (by decide)
